import Mathlib

/-!
# simplegit: a shallow embedding of `main.go` and its specification claims

The program is one `main` with a `switch` over the command name; each case reads
and writes a handful of files.  The embedding keeps that shape:

* a Go `string`/`[]byte` is a `Str` (a list of characters; texts are taken to be
  valid UTF-8, and every separator the program uses is a single ASCII byte, so
  splitting by character and by byte agree);
* the file system is a `Repo`: the current directory, the directories that exist
  and the regular files with their content, all under absolute paths; a path given
  to an I/O call is resolved component by component (`/`, `.`, `..`) the way the
  operating system does it;
* there are no symbolic links and no permissions: an I/O call fails only because
  something is missing, is a directory, is not a directory, or is not empty;
* `time.Now()` is the argument `now` of `commit`;
* SHA-1 and hex encoding are spelled out, so every definition can be evaluated.
-/

namespace SimpleGit

abbrev Str := List Char

/-! ## crypto/sha1 and encoding/hex -/

/-- UTF-8 bytes of one code point. -/
def utf8Char (c : Char) : List Nat :=
  let n := c.toNat
  if n < 0x80 then [n]
  else if n < 0x800 then [0xC0 + n / 64, 0x80 + n % 64]
  else if n < 0x10000 then [0xE0 + n / 4096, 0x80 + n / 64 % 64, 0x80 + n % 64]
  else [0xF0 + n / 262144, 0x80 + n / 4096 % 64, 0x80 + n / 64 % 64, 0x80 + n % 64]

/-- The bytes of a text (`[]byte(s)`). -/
def toBytes (s : Str) : List Nat := s.flatMap utf8Char

/-- Rotate a 32-bit word left by `k`. -/
def rotl (k x : Nat) : Nat := (x * 2 ^ k % 2 ^ 32) ||| (x / 2 ^ (32 - k))

def add32 (a b : Nat) : Nat := (a + b) % 2 ^ 32

def not32 (a : Nat) : Nat := 2 ^ 32 - 1 - a % 2 ^ 32

/-- Big-endian bytes of `x`, `n` of them. -/
def beBytes : Nat → Nat → List Nat
  | 0, _ => []
  | n + 1, x => x / 256 ^ n % 256 :: beBytes n x

def zeros : Nat → List Nat
  | 0 => []
  | n + 1 => 0 :: zeros n

/-- SHA-1 padding: a `0x80` byte, zeros up to 56 mod 64, the bit length on 8 bytes. -/
def sha1Pad (m : List Nat) : List Nat :=
  let l := m.length
  m ++ 0x80 :: zeros ((119 - l % 64) % 64) ++ beBytes 8 (8 * l)

def beWord : List Nat → Nat
  | a :: b :: c :: d :: _ => ((a * 256 + b) * 256 + c) * 256 + d
  | _ => 0

/-- The first `n` big-endian words of a block. -/
def blockWords : Nat → List Nat → List Nat
  | 0, _ => []
  | n + 1, bs => beWord bs :: blockWords n (bs.drop 4)

/-- Message schedule, newest word first: `w` holds w[t-1], w[t-2], ... -/
def schedule : Nat → List Nat → List Nat
  | 0, w => w
  | n + 1, w =>
    schedule n (rotl 1 (w.getD 2 0 ^^^ w.getD 7 0 ^^^ w.getD 13 0 ^^^ w.getD 15 0) :: w)

structure Digest where
  h0 : Nat
  h1 : Nat
  h2 : Nat
  h3 : Nat
  h4 : Nat

def sha1Init : Digest := ⟨0x67452301, 0xEFCDAB89, 0x98BADCFE, 0x10325476, 0xC3D2E1F0⟩

def sha1F (t b c d : Nat) : Nat :=
  if t < 20 then (b &&& c) ||| (not32 b &&& d)
  else if t < 40 then b ^^^ c ^^^ d
  else if t < 60 then (b &&& c) ||| (b &&& d) ||| (c &&& d)
  else b ^^^ c ^^^ d

def sha1K (t : Nat) : Nat :=
  if t < 20 then 0x5A827999
  else if t < 40 then 0x6ED9EBA1
  else if t < 60 then 0x8F1BBCDC
  else 0xCA62C1D6

def sha1Rounds : List Nat → Nat → Digest → Digest
  | [], _, s => s
  | w :: ws, t, s =>
    sha1Rounds ws (t + 1)
      ⟨add32 (add32 (add32 (add32 (rotl 5 s.h0) (sha1F t s.h1 s.h2 s.h3)) s.h4) (sha1K t)) w,
       s.h0, rotl 30 s.h1, s.h2, s.h3⟩

def sha1Block (s : Digest) (block : List Nat) : Digest :=
  let w := (schedule 64 (blockWords 16 block).reverse).reverse
  let r := sha1Rounds w 0 s
  ⟨add32 s.h0 r.h0, add32 s.h1 r.h1, add32 s.h2 r.h2, add32 s.h3 r.h3, add32 s.h4 r.h4⟩

def sha1Blocks : Nat → Digest → List Nat → Digest
  | 0, s, _ => s
  | n + 1, s, bs => sha1Blocks n (sha1Block s (bs.take 64)) (bs.drop 64)

/-- The 20 digest bytes (`hasher.Write(m); hasher.Sum(nil)`). -/
def sha1Sum (m : List Nat) : List Nat :=
  let p := sha1Pad m
  let d := sha1Blocks (p.length / 64) sha1Init p
  beBytes 4 d.h0 ++ beBytes 4 d.h1 ++ beBytes 4 d.h2 ++ beBytes 4 d.h3 ++ beBytes 4 d.h4

def hexDigit (n : Nat) : Char := "0123456789abcdef".toList.getD n '0'

/-- Lower-case hex, two digits per byte (`hex.EncodeToString`). -/
def hexEncode : List Nat → Str
  | [] => []
  | b :: bs => hexDigit (b / 16) :: hexDigit (b % 16) :: hexEncode bs

/-- The fingerprint of a text: `hex.EncodeToString` of its SHA-1 sum
(main.go lines 58-61, 116-118, 272-274). -/
def hashString (content : Str) : Str := hexEncode (sha1Sum (toBytes content))

/-! ## strings -/

/-- Go `strings.Split(s, sep)` for a one-byte separator: the pieces between the
separators, one more than there are separators. -/
def split (sep : Char) : Str → List Str
  | [] => [[]]
  | c :: cs =>
    if c = sep then [] :: split sep cs
    else
      match split sep cs with
      | [] => [[c]]
      | p :: ps => (c :: p) :: ps

/-- Go `strings.SplitN(s, sep, 2)` for a one-byte separator: `s` cut at the first
separator, or `s` alone when it has none. -/
def splitN2 (sep : Char) : Str → List Str
  | [] => [[]]
  | c :: cs =>
    if c = sep then [[], cs]
    else
      match splitN2 sep cs with
      | [p, r] => [c :: p, r]
      | _ => [c :: cs]

/-- Go `strings.HasPrefix(s, pre)`. -/
def hasPrefix : Str → Str → Bool
  | _, [] => true
  | [], _ :: _ => false
  | c :: s, d :: pre => if c = d then hasPrefix s pre else false

/-! ## the file system -/

/-- What failed: `os.IsNotExist(err)` or any other error. -/
inductive IOErr where
  | notExist
  | other
  deriving DecidableEq, Repr

deriving instance DecidableEq for Except

/-- An absolute path: the names from the root down. -/
abbrev Path := List Str

/-- The file system: the current directory, the directories that exist (the root
always does) and the regular files with their content. -/
structure Repo where
  cwd : Path
  dirs : List Path
  files : List (Path × Str)
  deriving DecidableEq

/-- First value stored under a key. -/
def lookup {α β : Type} [DecidableEq α] (k : α) : List (α × β) → Option β
  | [] => none
  | e :: r => if e.1 = k then some e.2 else lookup k r

/-- Drop every entry stored under a key. -/
def erase {α β : Type} [DecidableEq α] (k : α) : List (α × β) → List (α × β)
  | [] => []
  | e :: r => if e.1 = k then erase k r else e :: erase k r

def isDir (s : Repo) (p : Path) : Bool := p = [] || p ∈ s.dirs

def isFile (s : Repo) (p : Path) : Bool := (lookup p s.files).isSome

/-- Whether `p` lies strictly below `d`. -/
def below (d : Path) : Path → Bool
  | p => d.length < p.length && p.take d.length = d

/-- A directory with nothing in it. -/
def isEmptyDir (s : Repo) (d : Path) : Bool :=
  s.dirs.all (fun p => !below d p) && s.files.all (fun e => !below d e.1)

/-- Path resolution from the directory `cur`, one component at a time: an empty
component or `.` stays, `..` goes up, a name goes down; every component but the
last has to be a directory. The last name need not exist. -/
def walk (s : Repo) : Path → List Str → Except IOErr Path
  | cur, [] => .ok cur
  | cur, c :: rest =>
    if c = [] ∨ c = ".".toList then walk s cur rest
    else if c = "..".toList then
      if isDir s cur.dropLast then walk s cur.dropLast rest else .error .notExist
    else if rest = [] then .ok (cur ++ [c])
    else if isDir s (cur ++ [c]) then walk s (cur ++ [c]) rest
    else if isFile s (cur ++ [c]) then .error .other
    else .error .notExist

/-- The absolute path that a path text names: from the root when the text starts
with `/`, from the current directory otherwise. -/
def resolve (path : Str) (s : Repo) : Except IOErr Path :=
  if path = [] then .error .notExist
  else if path.head? = some '/' then walk s [] (split '/' path)
  else if isDir s s.cwd then walk s s.cwd (split '/' path)
  else .error .notExist

/-- `os.ReadFile(path)`. -/
def readFile (path : Str) (s : Repo) : Except IOErr Str :=
  match resolve path s with
  | .error e => .error e
  | .ok p =>
    if isDir s p then .error .other
    else
      match lookup p s.files with
      | none => .error .notExist
      | some c => .ok c

/-- The file `p` is created or replaced. -/
def setFile (p : Path) (content : Str) (s : Repo) : Repo :=
  { s with files := (p, content) :: erase p s.files }

/-- `os.WriteFile(path, content, 0644)`: the file is created or replaced. -/
def writeFile (path content : Str) (s : Repo) : Except IOErr Repo :=
  match resolve path s with
  | .error e => .error e
  | .ok p =>
    if isDir s p then .error .other
    else .ok (setFile p content s)

/-- The last component of a path text that is not empty. -/
def lastName (comps : List Str) : Str :=
  comps.foldl (fun acc c => if c = [] then acc else c) []

/-- The file `p` goes away. -/
def dropFile (p : Path) (s : Repo) : Repo := { s with files := erase p s.files }

/-- The directory `p` goes away. -/
def dropDir (p : Path) (s : Repo) : Repo := { s with dirs := s.dirs.filter (fun d => d ≠ p) }

/-- `os.Remove(path)`: a regular file or an empty directory goes away. -/
def remove (path : Str) (s : Repo) : Except IOErr Repo :=
  match resolve path s with
  | .error e => .error e
  | .ok p =>
    if isDir s p then
      if p = [] ∨ lastName (split '/' path) = ".".toList
          ∨ lastName (split '/' path) = "..".toList then .error .other
      else if isEmptyDir s p then .ok (dropDir p s)
      else .error .other
    else if isFile s p then .ok (dropFile p s)
    else .error .notExist

/-- The directories of `os.MkdirAll`, made from `cur` down. -/
def mkdirWalk : Repo → Path → List Str → Except IOErr Repo
  | s, _, [] => .ok s
  | s, cur, c :: rest =>
    if c = [] ∨ c = ".".toList then mkdirWalk s cur rest
    else if c = "..".toList then
      if isDir s cur.dropLast then mkdirWalk s cur.dropLast rest else .error .notExist
    else if isDir s (cur ++ [c]) then mkdirWalk s (cur ++ [c]) rest
    else if isFile s (cur ++ [c]) then .error .other
    else mkdirWalk { s with dirs := (cur ++ [c]) :: s.dirs } (cur ++ [c]) rest

/-- `os.MkdirAll(path, 0755)`: the directory and the missing ones above it. -/
def mkdirAll (path : Str) (s : Repo) : Except IOErr Repo :=
  if path = [] then .error .notExist
  else if path.head? = some '/' then mkdirWalk s [] (split '/' path)
  else if isDir s s.cwd then mkdirWalk s s.cwd (split '/' path)
  else .error .notExist

/-- The name of `p` when `p` is an entry of the directory `d`. -/
def childName (d p : Path) : Option Str :=
  match p.getLast? with
  | none => none
  | some n => if p.dropLast = d then some n else none

/-- Byte order on names. -/
def nameLt : Str → Str → Bool
  | [], [] => false
  | [], _ :: _ => true
  | _ :: _, [] => false
  | a :: as, b :: bs =>
    if a.toNat < b.toNat then true
    else if b.toNat < a.toNat then false
    else nameLt as bs

def insertEntry (e : Str × Bool) : List (Str × Bool) → List (Str × Bool)
  | [] => [e]
  | x :: xs => if nameLt x.1 e.1 then x :: insertEntry e xs else e :: x :: xs

def sortEntries : List (Str × Bool) → List (Str × Bool)
  | [] => []
  | e :: es => insertEntry e (sortEntries es)

/-- `os.ReadDir(".")`: the entries of the current directory, name and `IsDir()`,
sorted by name. -/
def readDir (s : Repo) : Except IOErr (List (Str × Bool)) :=
  if isDir s s.cwd then
    .ok (sortEntries
      (s.dirs.filterMap (fun d => (childName s.cwd d).map (fun n => (n, true)))
        ++ s.files.filterMap (fun e => (childName s.cwd e.1).map (fun n => (n, false)))))
  else .error .notExist

/-- `os.ReadFile(".mygit/index")`. -/
def readIndex (s : Repo) : Except IOErr Str := readFile ".mygit/index".toList s

/-- `os.WriteFile(".mygit/index", content, 0644)`. -/
def writeIndex (content : Str) (s : Repo) : Except IOErr Repo :=
  writeFile ".mygit/index".toList content s

/-- `os.ReadFile(".mygit/refs/heads/main")`. -/
def readMain (s : Repo) : Except IOErr Str := readFile ".mygit/refs/heads/main".toList s

/-- `os.WriteFile(".mygit/refs/heads/main", content, 0644)`. -/
def writeMain (content : Str) (s : Repo) : Except IOErr Repo :=
  writeFile ".mygit/refs/heads/main".toList content s

/-- `os.ReadFile(fmt.Sprintf(".mygit/objects/%s", name))`. -/
def readObject (name : Str) (s : Repo) : Except IOErr Str :=
  readFile (".mygit/objects/".toList ++ name) s

/-- `os.WriteFile(fmt.Sprintf(".mygit/objects/%s", name), content, 0644)`. -/
def writeObject (name content : Str) (s : Repo) : Except IOErr Repo :=
  writeFile (".mygit/objects/".toList ++ name) content s

/-! ## the commands -/

/-- A line on the console: a text, or a diagnostic that ends with an error value. -/
inductive Line where
  | text (s : Str)
  | failure (s : Str) (e : IOErr)
  deriving DecidableEq

/-- What one run of the program leaves: exit status, console lines, file system. -/
structure Result where
  exit : Nat
  out : List Line
  repo : Repo
  deriving DecidableEq

/-- The case "init" (main.go lines 21-43). -/
def init (s : Repo) : Result :=
  match mkdirAll ".mygit/objects".toList s with
  | .error e => ⟨1, [.failure "Failed to create objects dir: ".toList e], s⟩
  | .ok s1 =>
    match mkdirAll ".mygit/refs/heads".toList s1 with
    | .error e => ⟨1, [.failure "Failed to create refs/heads dir: ".toList e], s1⟩
    | .ok s2 =>
      match writeFile ".mygit/HEAD".toList "ref: refs/heads/main\n".toList s2 with
      | .error e => ⟨1, [.failure "Failed to write HEAD: ".toList e], s2⟩
      | .ok s3 =>
        match writeFile ".mygit/refs/heads/main".toList [] s3 with
        | .error e => ⟨1, [.failure "Failed to write main ref: ".toList e], s3⟩
        | .ok s4 => ⟨0, [.text "Initialized empty repository".toList], s4⟩

/-- The case "add" (main.go lines 45-75). -/
def add (fileName : Str) (s : Repo) : Result :=
  match readFile fileName s with
  | .error e => ⟨1, [.failure "Failed to read file contents: ".toList e], s⟩
  | .ok fileContents =>
    let hash := hashString fileContents
    match writeObject hash fileContents s with
    | .error e => ⟨1, [.failure "Failed to write object: ".toList e], s⟩
    | .ok s1 =>
      let indexEntry := fileName ++ " ".toList ++ hash ++ "\n".toList
      match writeIndex indexEntry s1 with
      | .error e => ⟨1, [.failure "Failed to write index file: ".toList e], s1⟩
      | .ok s2 => ⟨0, [], s2⟩

/-- The commit text (main.go lines 102-113): the parent line, one `blob` line per
non-empty index line, then author, message and date. -/
def commitContent (parentHash indexFileContents commitMessage now : Str) : Str :=
  let start := "parent ".toList ++ parentHash ++ "\n".toList
  let blobs := (split '\n' indexFileContents).foldl
    (fun acc line => if line = [] then acc else acc ++ ("blob ".toList ++ line ++ "\n".toList))
    start
  blobs ++ "author me\n".toList
    ++ ("message ".toList ++ commitMessage ++ "\n".toList)
    ++ ("date ".toList ++ now ++ "\n".toList)

/-- The second half of "commit" (main.go lines 102-142): build the record, hash it,
store the object, move the ref, clear the index. -/
def commitStore (parentHash indexFileContents commitMessage now : Str) (s : Repo) : Result :=
  let content := commitContent parentHash indexFileContents commitMessage now
  let commitHash := hashString content
  match writeObject commitHash content s with
  | .error e => ⟨1, [.failure "Failed to write commit object: ".toList e], s⟩
  | .ok s1 =>
    match writeMain commitHash s1 with
    | .error e => ⟨1, [.failure "Failed to update main ref: ".toList e], s1⟩
    | .ok s2 =>
      match writeIndex [] s2 with
      | .error e => ⟨1, [.failure "Failed to clear index: ".toList e], s2⟩
      | .ok s3 => ⟨0, [.text ("Committed with hash ".toList ++ commitHash)], s3⟩

/-- The case "commit" (main.go lines 77-142). -/
def commit (commitMessage now : Str) (s : Repo) : Result :=
  match readIndex s with
  | .error _ =>
    ⟨1, [.text "Could not read contents of file. Try adding something first".toList], s⟩
  | .ok indexFileContents =>
    let parent : Except Unit Str :=
      match readMain s with
      | .error e => if e ≠ .notExist then .error () else .ok []
      | .ok hashOfPreviousCommit => .ok hashOfPreviousCommit
    match parent with
    | .error _ => ⟨1, [.text "Could not read main file for previous commit".toList], s⟩
    | .ok parentHash => commitStore parentHash indexFileContents commitMessage now s

/-- One turn of the loop of "rm" over the index lines (main.go lines 175-184):
the new index text and whether a line of the file was seen. -/
def rmStep (fileToDelete : Str) (acc : Str × Bool) (line : Str) : Str × Bool :=
  if line = [] then acc
  else if !hasPrefix line (fileToDelete ++ " ".toList) then (acc.1 ++ (line ++ "\n".toList), acc.2)
  else (acc.1, true)

/-- The second half of "rm" (main.go lines 162-196): rewrite the index without the
lines of the file and report. `out1` is what the first half printed. -/
def rmIndex (fileToDelete : Str) (out1 : List Line) (s1 : Repo) : Result :=
  match readIndex s1 with
  | .error e =>
    if e = .notExist then
      ⟨0, out1 ++ [.text ("Removed ".toList ++ fileToDelete ++ " (no index to update)".toList)],
        s1⟩
    else ⟨1, out1 ++ [.failure "Could not read index: ".toList e], s1⟩
  | .ok indexContent =>
    let r := (split '\n' indexContent).foldl (rmStep fileToDelete) ([], false)
    let newIndex := r.1
    let found := r.2
    match writeIndex newIndex s1 with
    | .error e => ⟨1, out1 ++ [.failure "Could not update index: ".toList e], s1⟩
    | .ok s2 =>
      let err : Option IOErr := none
      if found || err = none then
        ⟨0, out1 ++ [.text ("Removed ".toList ++ fileToDelete)], s2⟩
      else
        ⟨0, out1 ++ [.text ("File ".toList ++ fileToDelete ++ " was not staged".toList)], s2⟩

/-- The case "rm" (main.go lines 144-196). -/
def rm (fileToDelete : Str) (s : Repo) : Result :=
  match remove fileToDelete s with
  | .error e =>
    if e = .notExist then
      rmIndex fileToDelete
        [.text ("File ".toList ++ fileToDelete ++ " does not exist in working directory".toList)]
        s
    else ⟨1, [.failure "Could not remove file/folder: ".toList e], s⟩
  | .ok s1 => rmIndex fileToDelete [] s1

/-- One turn of the loop of "status" over the index lines (main.go lines 204-211):
the assignments to the `staged` map, newest first, and the names printed. -/
def stagedStep (acc : List (Str × Str) × List Str) (line : Str) : List (Str × Str) × List Str :=
  if line ≠ [] then
    match split ' ' line with
    | p0 :: p1 :: _ => ((p0, p1) :: acc.1, acc.2 ++ [p0])
    | _ => acc
  else acc

/-- One turn of the loop of "status" over the lines of the commit object
(main.go lines 229-236): the assignments to the `committed` map, newest first. -/
def committedStep (acc : List (Str × Str)) (line : Str) : List (Str × Str) :=
  if hasPrefix line "blob ".toList then
    match splitN2 ' ' (line.drop 5) with
    | [p0, p1] => (p1, p0) :: acc
    | _ => acc
  else acc

/-- One turn of the loop of "status" over the directory entries (main.go lines
251-281): the `modified` and `untracked` lists. An entry is a name and `IsDir()`. -/
def scanStep (s : Repo) (staged committed : List (Str × Str))
    (acc : List Str × List Str) (entry : Str × Bool) : List Str × List Str :=
  if entry.2 && entry.1 = ".mygit".toList then acc
  else if entry.2 then acc
  else
    let filename := entry.1
    if (lookup filename staged).isSome then acc
    else
      match lookup filename committed with
      | some committedHash =>
        match readFile filename s with
        | .error _ => acc
        | .ok content =>
          if hashString content ≠ committedHash then (acc.1 ++ [filename], acc.2) else acc
      | none => (acc.1, acc.2 ++ [filename])

/-- What "status" reports: exit status, console lines, and the three lists. -/
structure StatusOut where
  exit : Nat
  out : List Line
  staged : List Str
  modified : List Str
  untracked : List Str
  deriving DecidableEq

/-- The lines of one list of "status" under its heading, none for an empty list
(main.go lines 284-296). -/
def display (heading : Str) (files : List Str) : List Line :=
  if files.length > 0 then
    .text heading :: files.map (fun file => .text (" ".toList ++ file))
  else []

/-- The case "status" (main.go lines 198-296). -/
def status (s : Repo) : StatusOut :=
  let index : Except IOErr (List (Str × Str) × List Str × List Line) :=
    match readIndex s with
    | .ok indexContent =>
      let r := (split '\n' indexContent).foldl stagedStep ([], [])
      .ok (r.1, r.2,
        .text "Staged for commit:".toList :: r.2.map (fun n => .text ("  ".toList ++ n)))
    | .error e => if e ≠ .notExist then .error e else .ok ([], [], [])
  match index with
  | .error e => ⟨1, [.failure "Could not read index: ".toList e], [], [], []⟩
  | .ok (staged, names, out1) =>
    let last : Except (List Line) (List (Str × Str)) :=
      match readMain s with
      | .ok headsMainHash =>
        match readObject headsMainHash s with
        | .error e => .error [.failure "Could not read commit object: ".toList e]
        | .ok commitContent => .ok ((split '\n' commitContent).foldl committedStep [])
      | .error e =>
        if e ≠ .notExist then .error [.failure "Could not read main ref: ".toList e] else .ok []
    match last with
    | .error out2 => ⟨1, out1 ++ out2, names, [], []⟩
    | .ok committed =>
      match readDir s with
      | .error e => ⟨1, out1 ++ [.failure "Could not read dir: ".toList e], names, [], []⟩
      | .ok dir =>
        let r := dir.foldl (scanStep s staged committed) ([], [])
        ⟨0, out1 ++ display "Modified:".toList r.1 ++ display "Untracked:".toList r.2,
          names, r.1, r.2⟩

/-- The program: `args` are the command-line words after the program name
(main.go lines 13-20, 298-300). -/
def main (args : List Str) (now : Str) (s : Repo) : Result :=
  match args with
  | [] => ⟨1, [.text "No command provided. Try again.".toList], s⟩
  | command :: rest =>
    if command = "init".toList then init s
    else if command = "add".toList then
      match rest with
      | [] => ⟨1, [.text "No file specified for 'add'".toList], s⟩
      | fileName :: _ => add fileName s
    else if command = "commit".toList then
      match rest with
      | [] => ⟨1, [.text "No message provided with commit".toList], s⟩
      | commitMessage :: _ => commit commitMessage now s
    else if command = "rm".toList then
      match rest with
      | [] => ⟨1, [.text "File/folder to remove not included".toList], s⟩
      | fileToDelete :: _ => rm fileToDelete s
    else if command = "status".toList then
      let r := status s
      ⟨r.exit, r.out, s⟩
    else ⟨0, [.text "Not a valid command".toList], s⟩

/-- The user saves `content` under `name`. -/
def edit (name content : Str) (s : Repo) : Repo :=
  match writeFile name content s with
  | .error _ => s
  | .ok s1 => s1

/-! ## sample runs -/

/-- The directory `/work` with the file `a.txt` = "hello" and no repository yet. -/
def tree0 : Repo :=
  ⟨["work".toList], [["work".toList]], [(["work".toList, "a.txt".toList], "hello".toList)]⟩

/-- After `init`. -/
def afterInit : Repo := (init tree0).repo

/-- After `init`, `add a.txt`. -/
def afterAdd : Repo := (add "a.txt".toList afterInit).repo

/-- After `init`, `add a.txt`, `commit first`. -/
def afterCommit : Repo := (commit "first".toList "2026-11-01T00:00:00Z".toList afterAdd).repo

/-- The directory `/work` with `a.txt` and `b.txt`, after `init` and `add b.txt`. -/
def stagedB : Repo :=
  (add "b.txt".toList
    (init ⟨["work".toList], [["work".toList]],
      [(["work".toList, "a.txt".toList], "hello".toList),
       (["work".toList, "b.txt".toList], "B".toList)]⟩).repo).repo

/-- The directory `.mygit` of the current directory. -/
def gitDir (s : Repo) : Path := s.cwd ++ [".mygit".toList]

def indexPath (s : Repo) : Path := s.cwd ++ [".mygit".toList, "index".toList]

def mainPath (s : Repo) : Path :=
  s.cwd ++ [".mygit".toList, "refs".toList, "heads".toList, "main".toList]

def objectPath (name : Str) (s : Repo) : Path :=
  s.cwd ++ [".mygit".toList, "objects".toList, name]

/-- The file `p` holds `v` and every directory of `ds` exists. -/
def Holds (s : Repo) (ds : List Path) (p : Path) (v : Str) : Prop :=
  (∀ d ∈ ds, isDir s d = true) ∧ isDir s p = false ∧ lookup p s.files = some v

/-- The file `p` can be written: every directory of `ds` exists and `p` is none. -/
def CanWrite (s : Repo) (ds : List Path) (p : Path) : Prop :=
  (∀ d ∈ ds, isDir s d = true) ∧ isDir s p = false

/-- The directories on the way to the index. -/
def indexDirs (s : Repo) : List Path := [s.cwd, gitDir s]

/-- The directories on the way to the main ref. -/
def mainDirs (s : Repo) : List Path :=
  [s.cwd, gitDir s, s.cwd ++ [".mygit".toList, "refs".toList],
   s.cwd ++ [".mygit".toList, "refs".toList, "heads".toList]]

/-- The directories on the way to an object. -/
def objectDirs (s : Repo) : List Path :=
  [s.cwd, gitDir s, s.cwd ++ [".mygit".toList, "objects".toList]]

/-- A name that is one path component: not empty, not `.` or `..`, no `/`. -/
def PlainName (n : Str) : Prop :=
  n ≠ [] ∧ n ≠ ".".toList ∧ n ≠ "..".toList ∧ '/' ∉ n

/-! ## runs of the program -/

/-- One command of a session. -/
inductive Event where
  | add (fileName : Str)
  | commit (commitMessage now : Str)
  | rm (fileToDelete : Str)
  | status

/-- The file system after a command, when the command exits with status 0. -/
def step (e : Event) (s : Repo) : Option Repo :=
  match e with
  | .add f => if (add f s).exit = 0 then some (add f s).repo else none
  | .commit m t => if (commit m t s).exit = 0 then some (commit m t s).repo else none
  | .rm f => if (rm f s).exit = 0 then some (rm f s).repo else none
  | .status => if (status s).exit = 0 then some s else none

/-- The file system after a sequence of commands that all succeed. -/
def runAll : List Event → Repo → Option Repo
  | [], s => some s
  | e :: es, s =>
    match step e s with
    | none => none
    | some s1 => runAll es s1

/-- Whether a path text names `.mygit` or something inside it. -/
def insideGit (path : Str) (s : Repo) : Bool :=
  match resolve path s with
  | .error _ => false
  | .ok p => p.take (s.cwd.length + 1) = gitDir s

/-- As `step`, for a command that removes nothing of `.mygit`. -/
def stepOutside (e : Event) (s : Repo) : Option Repo :=
  match e with
  | .rm f => if insideGit f s then none else step (.rm f) s
  | e => step e s

/-- The file system after a sequence of commands that all succeed, none of them
an `rm` of `.mygit` or of something inside it. -/
def runOutside : List Event → Repo → Option Repo
  | [], s => some s
  | e :: es, s =>
    match stepOutside e s with
    | none => none
    | some s1 => runOutside es s1

/-- The main ref is readable, and it is empty or names an object whose content
has the ref as fingerprint. -/
def Good (s : Repo) : Prop :=
  ∃ v, Holds s (mainDirs s) (mainPath s) v ∧
    (v = [] ∨ ∃ c, Holds s (objectDirs s) (objectPath v s) c ∧ hashString c = v)

/-! ## the commit record of the specification -/

/-- A fingerprint as the specification has it: 40 hexadecimal digits. -/
def isFingerprint (x : Str) : Bool :=
  x.length = 40 && x.all (fun c => c ∈ "0123456789abcdef".toList)

/-- A line `blob <fingerprint> <path>`, the fingerprint first. -/
def isSpecBlob (line : Str) : Bool :=
  hasPrefix line "blob ".toList && isFingerprint ((line.drop 5).take 40)
    && (line.drop 45).head? = some ' ' && (line.drop 46) ≠ []

/-- The lines after the parent line: blob lines, then author, message and date,
and the empty piece after the last line break. -/
def isSpecTail : List Str → Bool
  | [] => false
  | l :: ls =>
    if isSpecBlob l then isSpecTail ls
    else
      match l :: ls with
      | [a, m, d, e] =>
        hasPrefix a "author ".toList && hasPrefix m "message ".toList
          && hasPrefix d "date ".toList && e = []
      | _ => false

/-- The commit record as the specification words it (section 6): the line
`parent <fingerprint-or-empty>`, the lines `blob <fingerprint> <path>`, then the
lines `author`, `message` and `date`, in this order. -/
def isSpecRecord (c : Str) : Bool :=
  match split '\n' c with
  | [] => false
  | first :: rest =>
    hasPrefix first "parent ".toList
      && (first.drop 7 = [] || isFingerprint (first.drop 7)) && isSpecTail rest

/-- The run of three commands that ends with `rm` of the commit object. -/
def danglingRun : List Event :=
  [.add "a.txt".toList, .commit "first".toList "2026-11-01T00:00:00Z".toList,
   .rm ".mygit/objects/5b6d87866a47a49077d499fdc4836d6aaba2a924".toList]

/-- The file system at the end of `danglingRun`. -/
def afterRmObject : Repo :=
  (rm ".mygit/objects/5b6d87866a47a49077d499fdc4836d6aaba2a924".toList afterCommit).repo

/-- A whole session: two adds and commits, a `status`, and `rm a.txt` at the end. -/
def session : List Event :=
  [.add "a.txt".toList, .commit "first".toList "2026-11-01T00:00:00Z".toList,
   .add "a.txt".toList, .commit "second".toList "2026-11-01T00:00:01Z".toList,
   .status, .rm "a.txt".toList]

/-- The file system at the end of `session`. -/
def sessionEnd : Repo :=
  (rm "a.txt".toList
    (commit "second".toList "2026-11-01T00:00:01Z".toList
      (add "a.txt".toList afterCommit).repo).repo).repo

/-! ## lemmas -/

/-- A text without the separator, put in front, joins the first piece. -/
theorem split_append (sep : Char) (a b p : Str) (ps : List Str) (ha : sep ∉ a)
    (hb : split sep b = p :: ps) : split sep (a ++ b) = (a ++ p) :: ps := by
  induction a with
  | nil => simpa using hb
  | cons c a ih =>
    have hc : c ≠ sep := fun h => ha (by simp [h])
    have ha' : sep ∉ a := fun h => ha (by simp [h])
    simp [split, hc, ih ha']

theorem split_of_not_mem (sep : Char) (a : Str) (ha : sep ∉ a) : split sep a = [a] := by
  have := split_append sep a [] [] [] ha (by simp [split])
  simpa using this

theorem split_cons_sep (sep : Char) (b : Str) : split sep (sep :: b) = [] :: split sep b := by
  simp [split]

theorem split_index : split '/' ".mygit/index".toList = [".mygit".toList, "index".toList] := by
  decide

theorem split_main : split '/' ".mygit/refs/heads/main".toList
    = [".mygit".toList, "refs".toList, "heads".toList, "main".toList] := by
  decide

theorem split_object (name : Str) (h : '/' ∉ name) :
    split '/' (".mygit/objects/".toList ++ name)
      = [".mygit".toList, "objects".toList, name] := by
  have h1 : split '/' ("/".toList ++ name) = [[], name] := by
    show split '/' ('/' :: name) = _
    rw [split_cons_sep, split_of_not_mem '/' name h]
  have h2 : split '/' ("objects".toList ++ ("/".toList ++ name)) = ["objects".toList, name] := by
    have := split_append '/' "objects".toList _ _ _ (by decide) h1
    simpa using this
  have h3 : split '/' ("/".toList ++ ("objects".toList ++ ("/".toList ++ name)))
      = [[], "objects".toList, name] := by
    show split '/' ('/' :: ("objects".toList ++ ("/".toList ++ name))) = _
    rw [split_cons_sep, h2]
  have h4 := split_append '/' ".mygit".toList _ _ _ (by decide) h3
  simpa using h4

theorem walk_last (s : Repo) (cur : Path) (c : Str) (h1 : c ≠ []) (h2 : c ≠ ".".toList)
    (h3 : c ≠ "..".toList) : walk s cur [c] = .ok (cur ++ [c]) := by
  rw [walk, if_neg (by simp only [not_or]; exact ⟨h1, h2⟩), if_neg h3, if_pos rfl]

theorem walk_step (s : Repo) (cur : Path) (c : Str) (rest : List Str) (h1 : c ≠ [])
    (h2 : c ≠ ".".toList) (h3 : c ≠ "..".toList) (hr : rest ≠ []) :
    walk s cur (c :: rest) =
      if isDir s (cur ++ [c]) = true then walk s (cur ++ [c]) rest
      else if isFile s (cur ++ [c]) = true then .error .other else .error .notExist := by
  rw [walk, if_neg (by simp only [not_or]; exact ⟨h1, h2⟩), if_neg h3, if_neg hr]

/-- Resolution of a relative path text, whatever it is. -/
theorem resolve_rel (path : Str) (s : Repo) (h1 : path ≠ []) (h2 : path.head? ≠ some '/') :
    resolve path s =
      if isDir s s.cwd = true then walk s s.cwd (split '/' path) else .error .notExist := by
  rw [resolve, if_neg h1, if_neg h2]

theorem resolve_index (s : Repo) (p : Path) :
    resolve ".mygit/index".toList s = .ok p ↔
      (∀ d ∈ indexDirs s, isDir s d = true) ∧ p = indexPath s := by
  rw [resolve_rel _ _ (by decide) (by decide), split_index,
    walk_step _ _ _ _ (by decide) (by decide) (by decide) (by decide),
    walk_last _ _ _ (by decide) (by decide) (by decide)]
  unfold indexDirs gitDir indexPath
  simp only [List.mem_cons, List.mem_singleton, forall_eq_or_imp, forall_eq, List.append_assoc,
    List.singleton_append, List.not_mem_nil, false_implies, implies_true, and_true,
    List.cons_append, List.nil_append]
  by_cases h1 : isDir s s.cwd = true
    <;> by_cases h2 : isDir s (s.cwd ++ [".mygit".toList]) = true
    <;> simp only [h1, h2, if_true, if_false, true_and, false_and, and_false,
      Except.ok.injEq, eq_comm, reduceCtorEq, false_iff, not_false_eq_true]
  split <;> simp only [reduceCtorEq, not_false_eq_true]

theorem resolve_main (s : Repo) (p : Path) :
    resolve ".mygit/refs/heads/main".toList s = .ok p ↔
      (∀ d ∈ mainDirs s, isDir s d = true) ∧ p = mainPath s := by
  rw [resolve_rel _ _ (by decide) (by decide), split_main,
    walk_step _ _ _ _ (by decide) (by decide) (by decide) (by decide),
    walk_step _ _ _ _ (by decide) (by decide) (by decide) (by decide),
    walk_step _ _ _ _ (by decide) (by decide) (by decide) (by decide),
    walk_last _ _ _ (by decide) (by decide) (by decide)]
  unfold mainDirs gitDir mainPath
  simp only [List.mem_cons, List.mem_singleton, forall_eq_or_imp, forall_eq, List.append_assoc,
    List.singleton_append, List.not_mem_nil, false_implies, implies_true, and_true,
    List.cons_append, List.nil_append]
  by_cases h1 : isDir s s.cwd = true
    <;> by_cases h2 : isDir s (s.cwd ++ [".mygit".toList]) = true
    <;> by_cases h3 : isDir s (s.cwd ++ [".mygit".toList, "refs".toList]) = true
    <;> by_cases h4 : isDir s (s.cwd ++ [".mygit".toList, "refs".toList, "heads".toList]) = true
    <;> simp only [h1, h2, h3, h4, if_true, if_false, true_and, false_and, and_false,
      Except.ok.injEq, eq_comm, reduceCtorEq, false_iff, not_false_eq_true]
    <;> split <;> simp only [reduceCtorEq, not_false_eq_true]

theorem resolve_object (name : Str) (s : Repo) (p : Path) (hn : PlainName name) :
    resolve (".mygit/objects/".toList ++ name) s = .ok p ↔
      (∀ d ∈ objectDirs s, isDir s d = true) ∧ p = objectPath name s := by
  obtain ⟨n1, n2, n3, n4⟩ := hn
  rw [resolve_rel _ _ (by simp) (by simp), split_object name n4,
    walk_step _ _ _ _ (by decide) (by decide) (by decide) (by simp),
    walk_step _ _ _ _ (by decide) (by decide) (by decide) (by simp),
    walk_last _ _ _ n1 n2 n3]
  unfold objectDirs gitDir objectPath
  simp only [List.mem_cons, List.mem_singleton, forall_eq_or_imp, forall_eq, List.append_assoc,
    List.singleton_append, List.not_mem_nil, false_implies, implies_true, and_true,
    List.cons_append, List.nil_append]
  by_cases h1 : isDir s s.cwd = true
    <;> by_cases h2 : isDir s (s.cwd ++ [".mygit".toList]) = true
    <;> by_cases h3 : isDir s (s.cwd ++ [".mygit".toList, "objects".toList]) = true
    <;> simp only [h1, h2, h3, if_true, if_false, true_and, false_and, and_false,
      Except.ok.injEq, eq_comm, reduceCtorEq, false_iff, not_false_eq_true]
    <;> split <;> simp only [reduceCtorEq, not_false_eq_true]

theorem readFile_iff (path : Str) (s : Repo) (ds : List Path) (q : Path)
    (hres : ∀ p, resolve path s = .ok p ↔ (∀ d ∈ ds, isDir s d = true) ∧ p = q) (v : Str) :
    readFile path s = .ok v ↔ Holds s ds q v := by
  unfold readFile Holds
  cases hr : resolve path s with
  | error e =>
    simp only [reduceCtorEq, false_iff]
    intro ⟨hd, _, _⟩
    have := (hres q).2 ⟨hd, rfl⟩
    rw [hr] at this
    cases this
  | ok p =>
    obtain ⟨hd, hp⟩ := (hres p).1 hr
    subst hp
    by_cases h1 : isDir s p = true
    · simp [h1]
    · cases hl : lookup p s.files with
      | none => simp [h1, hl]
      | some x =>
        have h1' : isDir s p = false := by simpa using h1
        simp only [h1', hl, Except.ok.injEq, Option.some.injEq, Bool.false_eq_true, if_false]
        exact ⟨fun h => ⟨hd, trivial, h⟩, fun h => h.2.2⟩

theorem writeFile_iff (path content : Str) (s s1 : Repo) (ds : List Path) (q : Path)
    (hres : ∀ p, resolve path s = .ok p ↔ (∀ d ∈ ds, isDir s d = true) ∧ p = q) :
    writeFile path content s = .ok s1 ↔
      CanWrite s ds q ∧ s1 = setFile q content s := by
  unfold writeFile CanWrite
  cases hr : resolve path s with
  | error e =>
    simp only [reduceCtorEq, false_iff]
    intro ⟨⟨hd, _⟩, _⟩
    have := (hres q).2 ⟨hd, rfl⟩
    rw [hr] at this
    cases this
  | ok p =>
    obtain ⟨hd, hp⟩ := (hres p).1 hr
    subst hp
    by_cases h1 : isDir s p = true
    · simp [h1]
    · have h1' : isDir s p = false := by simpa using h1
      simp only [h1', Bool.false_eq_true, if_false, Except.ok.injEq]
      exact ⟨fun h => ⟨⟨hd, trivial⟩, h.symm⟩, fun h => h.2.symm⟩

theorem readIndex_iff (s : Repo) (v : Str) :
    readIndex s = .ok v ↔ Holds s (indexDirs s) (indexPath s) v :=
  readFile_iff _ s _ _ (resolve_index s) v

theorem readMain_iff (s : Repo) (v : Str) :
    readMain s = .ok v ↔ Holds s (mainDirs s) (mainPath s) v :=
  readFile_iff _ s _ _ (resolve_main s) v

theorem readObject_iff (name : Str) (s : Repo) (hn : PlainName name) (v : Str) :
    readObject name s = .ok v ↔ Holds s (objectDirs s) (objectPath name s) v :=
  readFile_iff _ s _ _ (fun p => resolve_object name s p hn) v

theorem writeIndex_iff (content : Str) (s s1 : Repo) :
    writeIndex content s = .ok s1 ↔
      CanWrite s (indexDirs s) (indexPath s) ∧ s1 = setFile (indexPath s) content s :=
  writeFile_iff _ content s s1 _ _ (resolve_index s)

theorem writeMain_iff (content : Str) (s s1 : Repo) :
    writeMain content s = .ok s1 ↔
      CanWrite s (mainDirs s) (mainPath s) ∧ s1 = setFile (mainPath s) content s :=
  writeFile_iff _ content s s1 _ _ (resolve_main s)

theorem writeObject_iff (name content : Str) (s s1 : Repo) (hn : PlainName name) :
    writeObject name content s = .ok s1 ↔
      CanWrite s (objectDirs s) (objectPath name s) ∧
        s1 = setFile (objectPath name s) content s :=
  writeFile_iff _ content s s1 _ _ (fun p => resolve_object name s p hn)

theorem hexDigit_mem (n : Nat) : hexDigit n ∈ "0123456789abcdef".toList := by
  unfold hexDigit
  by_cases h : n < 16
  · interval_cases n <;> decide
  · have : "0123456789abcdef".toList.length ≤ n := by
      have : "0123456789abcdef".toList.length = 16 := by decide
      omega
    rw [List.getD_eq_default _ _ this]
    decide

theorem hexEncode_mem (bs : List Nat) (c : Char) (h : c ∈ hexEncode bs) :
    c ∈ "0123456789abcdef".toList := by
  induction bs with
  | nil => simp [hexEncode] at h
  | cons b bs ih =>
    simp only [hexEncode, List.mem_cons] at h
    rcases h with h | h | h
    · rw [h]; exact hexDigit_mem _
    · rw [h]; exact hexDigit_mem _
    · exact ih h

theorem hashString_ne_nil (c : Str) : hashString c ≠ [] := by
  simp [hashString, sha1Sum, beBytes, hexEncode]

theorem hashString_plain (c : Str) : PlainName (hashString c) := by
  have hm : ∀ ch ∈ hashString c, ch ∈ "0123456789abcdef".toList :=
    fun ch h => hexEncode_mem _ ch h
  have hdot : '.' ∉ hashString c := fun h => absurd (hm _ h) (by decide)
  refine ⟨hashString_ne_nil c, ?_, ?_, fun h => absurd (hm _ h) (by decide)⟩
  · intro h; rw [h] at hdot; exact hdot (by decide)
  · intro h; rw [h] at hdot; exact hdot (by decide)

theorem lookup_cons_erase {α β : Type} [DecidableEq α] (k k' : α) (v : β) (l : List (α × β)) :
    lookup k' ((k, v) :: erase k l) = if k = k' then some v else lookup k' l := by
  by_cases h : k = k'
  · simp [lookup, h]
  · simp only [lookup, h, if_false]
    induction l with
    | nil => simp [erase, lookup]
    | cons e r ih =>
      by_cases he : e.1 = k
      · have : e.1 ≠ k' := by rw [he]; exact h
        simp [erase, lookup, he, ih, h]
      · simp [erase, lookup, he, ih]

theorem lookup_erase_ne {α β : Type} [DecidableEq α] (k k' : α) (l : List (α × β))
    (h : k ≠ k') : lookup k' (erase k l) = lookup k' l := by
  induction l with
  | nil => simp [erase, lookup]
  | cons e r ih =>
    by_cases he : e.1 = k
    · have : e.1 ≠ k' := by rw [he]; exact h
      simp [erase, lookup, he, ih, this, h]
    · simp [erase, lookup, he, ih]

/-- Writing another file leaves a file as it is. -/
theorem holds_write_ne (s : Repo) (ds : List Path) (p q : Path) (v c : Str)
    (h : Holds s ds p v) (hq : q ≠ p) :
    Holds (setFile q c s) ds p v := by
  obtain ⟨h1, h2, h3⟩ := h
  exact ⟨h1, h2, by show lookup p ((q, c) :: erase q s.files) = _
                    rw [lookup_cons_erase, if_neg hq]; exact h3⟩

/-- A written file holds what was written. -/
theorem holds_write_same (s : Repo) (ds : List Path) (p : Path) (c : Str)
    (h : CanWrite s ds p) : Holds (setFile p c s) ds p c := by
  obtain ⟨h1, h2⟩ := h
  exact ⟨h1, h2, by show lookup p ((p, c) :: erase p s.files) = _
                    rw [lookup_cons_erase, if_pos rfl]⟩

theorem index_ne_main (s : Repo) : indexPath s ≠ mainPath s := by
  simp [indexPath, mainPath]

theorem index_ne_object (name : Str) (s : Repo) : indexPath s ≠ objectPath name s := by
  simp [indexPath, objectPath]

theorem object_ne_main (name : Str) (s : Repo) : objectPath name s ≠ mainPath s := by
  simp [objectPath, mainPath]

theorem object_ne_object (a b : Str) (s : Repo) (h : a ≠ b) :
    objectPath a s ≠ objectPath b s := by
  simp [objectPath, h]

theorem commitStore_ok (parent idx msg now : Str) (s : Repo)
    (h : (commitStore parent idx msg now s).exit = 0) :
    CanWrite s (objectDirs s)
        (objectPath (hashString (commitContent parent idx msg now)) s) ∧
      CanWrite s (mainDirs s) (mainPath s) ∧
      CanWrite s (indexDirs s) (indexPath s) ∧
      (commitStore parent idx msg now s).repo =
        setFile (indexPath s) []
          (setFile (mainPath s) (hashString (commitContent parent idx msg now))
            (setFile (objectPath (hashString (commitContent parent idx msg now)) s)
              (commitContent parent idx msg now) s)) := by
  cases hw1 : writeObject (hashString (commitContent parent idx msg now))
      (commitContent parent idx msg now) s with
  | error e => simp only [commitStore, hw1] at h; cases h
  | ok s1 =>
    obtain ⟨c1, e1⟩ := (writeObject_iff _ _ s s1 (hashString_plain _)).1 hw1
    cases hw2 : writeMain (hashString (commitContent parent idx msg now)) s1 with
    | error e => simp only [commitStore, hw1, hw2] at h; cases h
    | ok s2 =>
      obtain ⟨c2, e2⟩ := (writeMain_iff _ s1 s2).1 hw2
      cases hw3 : writeIndex [] s2 with
      | error e => simp only [commitStore, hw1, hw2, hw3] at h; cases h
      | ok s3 =>
        obtain ⟨c3, e3⟩ := (writeIndex_iff _ s2 s3).1 hw3
        simp only [commitStore, hw1, hw2, hw3]
        rw [e1] at c2 e2
        rw [e2] at c3 e3
        exact ⟨c1, c2, c3, e3⟩

/-- What a successful `commit` does: it reads the index and the ref, then writes
the object, the ref and the empty index. -/
theorem commit_ok (msg now : Str) (s : Repo) (h : (commit msg now s).exit = 0) :
    ∃ idx parent, readIndex s = .ok idx ∧
      (readMain s = .ok parent ∨ readMain s = .error .notExist ∧ parent = []) ∧
      CanWrite s (objectDirs s)
        (objectPath (hashString (commitContent parent idx msg now)) s) ∧
      CanWrite s (mainDirs s) (mainPath s) ∧
      CanWrite s (indexDirs s) (indexPath s) ∧
      (commit msg now s).repo =
        setFile (indexPath s) []
          (setFile (mainPath s) (hashString (commitContent parent idx msg now))
            (setFile (objectPath (hashString (commitContent parent idx msg now)) s)
              (commitContent parent idx msg now) s)) := by
  cases hi : readIndex s with
  | error e => simp only [commit, hi] at h; cases h
  | ok idx =>
    cases hm : readMain s with
    | ok parent =>
      have heq : commit msg now s = commitStore parent idx msg now s := by
        simp only [commit, hi, hm]
      rw [heq] at h ⊢
      exact ⟨idx, parent, rfl, Or.inl rfl, commitStore_ok parent idx msg now s h⟩
    | error e =>
      cases e with
      | notExist =>
        have heq : commit msg now s = commitStore [] idx msg now s := by
          simp only [commit, hi, hm]
          rfl
        rw [heq] at h ⊢
        exact ⟨idx, [], rfl, Or.inr ⟨rfl, rfl⟩, commitStore_ok [] idx msg now s h⟩
      | other =>
        have heq : (commit msg now s).exit = 1 := by
          simp only [commit, hi, hm]
          rfl
        rw [heq] at h
        cases h

/-- What a successful `add` does: it reads the file, then writes the object and
the index. -/
theorem add_ok (f : Str) (s : Repo) (h : (add f s).exit = 0) :
    ∃ c, readFile f s = .ok c ∧
      CanWrite s (objectDirs s) (objectPath (hashString c) s) ∧
      CanWrite s (indexDirs s) (indexPath s) ∧
      (add f s).repo =
        setFile (indexPath s) (f ++ " ".toList ++ hashString c ++ "\n".toList)
          (setFile (objectPath (hashString c) s) c s) := by
  cases hr : readFile f s with
  | error e => simp only [add, hr] at h; cases h
  | ok c =>
    cases hw1 : writeObject (hashString c) c s with
    | error e => simp only [add, hr, hw1] at h; cases h
    | ok s1 =>
      obtain ⟨c1, e1⟩ := (writeObject_iff _ _ s s1 (hashString_plain _)).1 hw1
      cases hw2 : writeIndex (f ++ " ".toList ++ hashString c ++ "\n".toList) s1 with
      | error e => simp only [add, hr, hw1, hw2] at h; cases h
      | ok s2 =>
        obtain ⟨c2, e2⟩ := (writeIndex_iff _ s1 s2).1 hw2
        simp only [add, hr, hw1, hw2]
        rw [e1] at c2 e2
        exact ⟨c, rfl, c1, c2, e2⟩

/-- After a successful `commit` the object store has the record under its
fingerprint and the main ref holds that fingerprint. -/
theorem commit_reads (msg now : Str) (s : Repo) (h : (commit msg now s).exit = 0) :
    ∃ idx parent, readIndex s = .ok idx ∧
      (readMain s = .ok parent ∨ readMain s = .error .notExist ∧ parent = []) ∧
      readObject (hashString (commitContent parent idx msg now)) (commit msg now s).repo
        = .ok (commitContent parent idx msg now) ∧
      readMain (commit msg now s).repo
        = .ok (hashString (commitContent parent idx msg now)) := by
  obtain ⟨idx, parent, hi, hm, c1, c2, c3, hr⟩ := commit_ok msg now s h
  refine ⟨idx, parent, hi, hm, ?_, ?_⟩
  · rw [hr]
    refine (readObject_iff _ _ (hashString_plain _) _).2 ?_
    exact holds_write_ne _ _ _ _ _ _
      (holds_write_ne _ _ _ _ _ _ (holds_write_same s _ _ _ c1)
        (object_ne_main _ s).symm) (index_ne_object _ s)
  · rw [hr]
    refine (readMain_iff _ _).2 ?_
    exact holds_write_ne _ _ _ _ _ _ (holds_write_same _ _ _ _ c2) (index_ne_main s)

/-- A successful `add` leaves the main ref as it is. -/
theorem readMain_add (f : Str) (s : Repo) (v : Str) (h : (add f s).exit = 0)
    (hm : readMain s = .ok v) : readMain (add f s).repo = .ok v := by
  obtain ⟨c, _, _, _, hr⟩ := add_ok f s h
  rw [hr]
  refine (readMain_iff _ _).2 ?_
  exact holds_write_ne _ _ _ _ _ _
    (holds_write_ne _ _ _ _ _ _ ((readMain_iff _ _).1 hm) (object_ne_main _ s))
    (index_ne_main s)

/-- Two commits in a row: the second record has the fingerprint of the first as
parent, whatever is staged in between. -/
theorem second_commit_parent (m1 t1 m2 t2 f : Str) (s : Repo)
    (h1 : (commit m1 t1 s).exit = 0) (ha : (add f (commit m1 t1 s).repo).exit = 0)
    (h2 : (commit m2 t2 (add f (commit m1 t1 s).repo).repo).exit = 0) :
    ∃ idx1 p1 idx2, readIndex s = .ok idx1 ∧
      readIndex (add f (commit m1 t1 s).repo).repo = .ok idx2 ∧
      readMain (commit m1 t1 s).repo = .ok (hashString (commitContent p1 idx1 m1 t1)) ∧
      readMain (commit m2 t2 (add f (commit m1 t1 s).repo).repo).repo
        = .ok (hashString
            (commitContent (hashString (commitContent p1 idx1 m1 t1)) idx2 m2 t2)) := by
  obtain ⟨idx1, p1, hi1, _, _, hr1⟩ := commit_reads m1 t1 s h1
  obtain ⟨idx2, p2, hi2, hm2, _, hr2⟩ := commit_reads m2 t2 _ h2
  have hm := readMain_add f _ _ ha hr1
  rcases hm2 with hm2 | ⟨hm2, _⟩
  · rw [hm] at hm2
    injection hm2 with hm2
    subst hm2
    exact ⟨idx1, p1, idx2, hi1, hi2, hr1, hr2⟩
  · rw [hm] at hm2
    cases hm2

/-- Removing another file leaves a file as it is. -/
theorem holds_dropFile (s : Repo) (ds : List Path) (p q : Path) (v : Str)
    (h : Holds s ds p v) (hq : q ≠ p) : Holds (dropFile q s) ds p v := by
  obtain ⟨h1, h2, h3⟩ := h
  exact ⟨h1, h2, by show lookup p (erase q s.files) = _
                    rw [lookup_erase_ne q p _ hq]; exact h3⟩

/-- Removing a directory that is not on the way leaves a file as it is. -/
theorem holds_dropDir (s : Repo) (ds : List Path) (p q : Path) (v : Str)
    (h : Holds s ds p v) (hq : q ∉ ds) : Holds (dropDir q s) ds p v := by
  obtain ⟨h1, h2, h3⟩ := h
  refine ⟨fun d hd => ?_, ?_, h3⟩
  · have hne : d ≠ q := fun e => hq (e ▸ hd)
    have := h1 d hd
    simp only [isDir, dropDir, Bool.or_eq_true, decide_eq_true_eq, List.mem_filter,
      ne_eq, not_false_eq_true, and_true] at this ⊢
    rcases this with h0 | h0
    · exact Or.inl h0
    · exact Or.inr ⟨h0, by simpa using hne⟩
  · simp only [isDir, dropDir, Bool.or_eq_false_iff, decide_eq_false_iff_not,
      List.mem_filter, not_and] at h2 ⊢
    exact ⟨h2.1, fun hm => absurd hm h2.2⟩

/-- What `os.Remove` does when it succeeds. -/
theorem remove_ok (path : Str) (s s1 : Repo) (h : remove path s = .ok s1) :
    ∃ p, resolve path s = .ok p ∧
      ((isDir s p = false ∧ s1 = dropFile p s) ∨
        (isDir s p = true ∧ isEmptyDir s p = true ∧ s1 = dropDir p s)) := by
  unfold remove at h
  cases hr : resolve path s with
  | error e => rw [hr] at h; cases h
  | ok p =>
    rw [hr] at h
    refine ⟨p, rfl, ?_⟩
    by_cases hd : isDir s p = true
    · simp only [hd, if_true] at h
      split at h
      · cases h
      · split at h
        · rename_i he
          injection h with h
          exact Or.inr ⟨hd, he, h.symm⟩
        · cases h
    · have hd' : isDir s p = false := by simpa using hd
      simp only [hd', Bool.false_eq_true, if_false] at h
      split at h
      · injection h with h
        exact Or.inl ⟨hd', h.symm⟩
      · cases h

/-- The second half of `rm` leaves the file system as it is or rewrites the index. -/
theorem rmIndex_repo (f : Str) (out1 : List Line) (s1 : Repo) :
    (rmIndex f out1 s1).repo = s1 ∨
      ∃ new, (rmIndex f out1 s1).repo = setFile (indexPath s1) new s1 := by
  unfold rmIndex
  cases hi : readIndex s1 with
  | error e =>
    left
    simp only
    split <;> rfl
  | ok idx =>
    simp only
    cases hw : writeIndex ((split '\n' idx).foldl (rmStep f) ([], false)).1 s1 with
    | error e => left; rfl
    | ok s2 =>
      right
      obtain ⟨_, e2⟩ := (writeIndex_iff _ s1 s2).1 hw
      refine ⟨((split '\n' idx).foldl (rmStep f) ([], false)).1, ?_⟩
      simp only
      split <;> exact e2

theorem take_git (s : Repo) (rest : Path) :
    (s.cwd ++ ".mygit".toList :: rest).take (s.cwd.length + 1) = gitDir s := by
  simp [List.take_append_eq_append_take, gitDir]

theorem below_git (s : Repo) : below s.cwd (gitDir s) = true := by
  simp [below, gitDir, List.take_append_eq_append_take]

/-- The command `rm`, when it removes nothing of `.mygit`, leaves the files of
`.mygit` other than the index as they are. -/
theorem holds_rm (f : Str) (s : Repo) (ds : List Path) (rest : Path) (v : Str)
    (hout : insideGit f s = false)
    (hds : ∀ d ∈ ds, d = s.cwd ∨ d.take (s.cwd.length + 1) = gitDir s)
    (hgit : isDir s (gitDir s) = true)
    (hidx : s.cwd ++ ".mygit".toList :: rest ≠ indexPath s)
    (h : Holds s ds (s.cwd ++ ".mygit".toList :: rest) v) :
    Holds (rm f s).repo ds (s.cwd ++ ".mygit".toList :: rest) v := by
  have second : ∀ (out1 : List Line) (s1 : Repo), s1.cwd = s.cwd →
      Holds s1 ds (s.cwd ++ ".mygit".toList :: rest) v →
      Holds (rmIndex f out1 s1).repo ds (s.cwd ++ ".mygit".toList :: rest) v := by
    intro out1 s1 hc h1
    rcases rmIndex_repo f out1 s1 with e | ⟨new, e⟩
    · rw [e]; exact h1
    · rw [e]
      refine holds_write_ne _ _ _ _ _ _ h1 ?_
      intro e2
      apply hidx
      rw [← e2, indexPath, indexPath, hc]
  unfold rm
  cases hr : remove f s with
  | error e =>
    simp only
    split
    · exact second _ s rfl h
    · exact h
  | ok s1 =>
    simp only
    obtain ⟨p, hp, hcase⟩ := remove_ok f s s1 hr
    have hpg : p.take (s.cwd.length + 1) ≠ gitDir s := by
      simpa [insideGit, hp] using hout
    rcases hcase with ⟨_, e⟩ | ⟨_, hemp, e⟩
    · rw [e]
      refine second _ _ rfl (holds_dropFile _ _ _ _ _ h ?_)
      intro e2
      apply hpg
      rw [e2]
      exact take_git s rest
    · rw [e]
      refine second _ _ rfl (holds_dropDir _ _ _ _ _ h ?_)
      intro hmem
      rcases hds p hmem with e2 | e2
      · have hg : gitDir s ∈ s.dirs := by
          have := hgit
          simp only [isDir, Bool.or_eq_true, decide_eq_true_eq] at this
          rcases this with h0 | h0
          · simp [gitDir] at h0
          · exact h0
        have := hemp
        simp only [isEmptyDir, Bool.and_eq_true, List.all_eq_true] at this
        have hb := this.1 _ hg
        rw [e2, below_git] at hb
        cases hb
      · exact hpg e2

theorem rm_cwd (f : Str) (s : Repo) : (rm f s).repo.cwd = s.cwd := by
  have second : ∀ (out1 : List Line) (s1 : Repo), (rmIndex f out1 s1).repo.cwd = s1.cwd := by
    intro out1 s1
    rcases rmIndex_repo f out1 s1 with e | ⟨new, e⟩
    · rw [e]
    · rw [e]; rfl
  unfold rm
  cases hr : remove f s with
  | error e =>
    simp only
    split
    · exact second _ s
    · rfl
  | ok s1 =>
    simp only
    rw [second]
    obtain ⟨p, _, hcase⟩ := remove_ok f s s1 hr
    rcases hcase with ⟨_, e⟩ | ⟨_, _, e⟩ <;> rw [e] <;> rfl

theorem good_init (s : Repo) (h : (init s).exit = 0) : Good (init s).repo := by
  unfold init at h ⊢
  cases h1 : mkdirAll ".mygit/objects".toList s with
  | error e => simp only [h1] at h; cases h
  | ok s1 =>
    cases h2 : mkdirAll ".mygit/refs/heads".toList s1 with
    | error e => simp only [h1, h2] at h; cases h
    | ok s2 =>
      cases h3 : writeFile ".mygit/HEAD".toList "ref: refs/heads/main\n".toList s2 with
      | error e => simp only [h1, h2, h3] at h; cases h
      | ok s3 =>
        cases h4 : writeFile ".mygit/refs/heads/main".toList [] s3 with
        | error e => simp only [h1, h2, h3, h4] at h; cases h
        | ok s4 =>
          simp only [h1, h2, h3, h4]
          obtain ⟨c4, e4⟩ := (writeMain_iff [] s3 s4).1 h4
          rw [e4]
          exact ⟨[], holds_write_same _ _ _ _ c4, Or.inl rfl⟩

theorem good_add (f : Str) (s : Repo) (hg : Good s) (h : (add f s).exit = 0) :
    Good (add f s).repo := by
  obtain ⟨c1, _, w1, w2, hr⟩ := add_ok f s h
  obtain ⟨v, hm, hv⟩ := hg
  rw [hr]
  refine ⟨v, holds_write_ne _ _ _ _ _ _
    (holds_write_ne _ _ _ _ _ _ hm (object_ne_main _ s)) (index_ne_main s), ?_⟩
  rcases hv with h0 | ⟨c, hc, hh⟩
  · exact Or.inl h0
  · right
    by_cases hk : objectPath (hashString c1) s = objectPath v s
    · have hk' : hashString c1 = v := by simpa [objectPath] using hk
      subst hk'
      exact ⟨c1, holds_write_ne _ _ _ _ _ _
        (holds_write_same s (objectDirs s) (objectPath (hashString c1) s) c1 w1)
        (index_ne_object _ s), rfl⟩
    · exact ⟨c, holds_write_ne _ _ _ _ _ _
        (holds_write_ne _ _ _ _ _ _ hc hk) (index_ne_object _ s), hh⟩

theorem good_commit (m t : Str) (s : Repo) (h : (commit m t s).exit = 0) :
    Good (commit m t s).repo := by
  obtain ⟨idx, parent, _, _, ho, hr⟩ := commit_reads m t s h
  exact ⟨_, (readMain_iff _ _).1 hr,
    Or.inr ⟨_, (readObject_iff _ _ (hashString_plain _) _).1 ho, rfl⟩⟩

theorem good_rm (f : Str) (s : Repo) (hg : Good s) (hout : insideGit f s = false) :
    Good (rm f s).repo := by
  obtain ⟨v, hm, hv⟩ := hg
  have hgit : isDir s (gitDir s) = true := hm.1 _ (by simp [mainDirs])
  have hcwd := rm_cwd f s
  have e1 : mainDirs (rm f s).repo = mainDirs s := by simp only [mainDirs, gitDir, hcwd]
  have e2 : mainPath (rm f s).repo = mainPath s := by simp only [mainPath, hcwd]
  have e3 : objectDirs (rm f s).repo = objectDirs s := by simp only [objectDirs, gitDir, hcwd]
  have e4 : ∀ n, objectPath n (rm f s).repo = objectPath n s := by
    intro n; simp only [objectPath, hcwd]
  unfold Good
  rw [e1, e2, e3]
  refine ⟨v, ?_, ?_⟩
  · refine holds_rm f s _ _ v hout ?_ hgit (index_ne_main s).symm hm
    intro d hd
    simp only [mainDirs, List.mem_cons, List.mem_singleton, List.not_mem_nil, or_false] at hd
    rcases hd with e | e | e | e
    · exact Or.inl e
    · right; rw [e]; exact take_git s []
    · right; rw [e]; exact take_git s _
    · right; rw [e]; exact take_git s _
  · rcases hv with h0 | ⟨c, hc, hh⟩
    · exact Or.inl h0
    · right
      refine ⟨c, ?_, hh⟩
      rw [e4]
      refine holds_rm f s _ _ c hout ?_ hgit (index_ne_object _ s).symm hc
      intro d hd
      simp only [objectDirs, List.mem_cons, List.mem_singleton, List.not_mem_nil,
        or_false] at hd
      rcases hd with e | e | e
      · exact Or.inl e
      · right; rw [e]; exact take_git s []
      · right; rw [e]; exact take_git s _

theorem good_step (e : Event) (s s1 : Repo) (hg : Good s) (h : stepOutside e s = some s1) :
    Good s1 := by
  cases e with
  | add f =>
    simp only [stepOutside, step] at h
    split at h
    · cases h; exact good_add f s hg (by assumption)
    · cases h
  | commit m t =>
    simp only [stepOutside, step] at h
    split at h
    · cases h; exact good_commit m t s (by assumption)
    · cases h
  | rm f =>
    simp only [stepOutside] at h
    split at h
    · cases h
    · rename_i hout
      simp only [step] at h
      split at h
      · cases h; exact good_rm f s hg (by simpa using hout)
      · cases h
  | status =>
    simp only [stepOutside, step] at h
    split at h
    · cases h; exact hg
    · cases h

theorem good_run (es : List Event) (s s1 : Repo) (hg : Good s)
    (h : runOutside es s = some s1) : Good s1 := by
  induction es generalizing s with
  | nil => simp only [runOutside] at h; cases h; exact hg
  | cons e es ih =>
    simp only [runOutside] at h
    cases hs : stepOutside e s with
    | none => rw [hs] at h; cases h
    | some s2 =>
      rw [hs] at h
      exact ih s2 (good_step e s s2 hg hs) h

/-- C10, amended: take any sequence of `add`, `commit`, `rm` and `status` commands
after a successful `init`, all of them successful and no `rm` naming `.mygit` or
something inside it. In the state reached the main ref is empty, or it holds a
fingerprint `h` such that the object store has an object under `h` whose content
has `h` as SHA-1 hex fingerprint. -/
theorem no_dangling_ref (s0 : Repo) (es : List Event) (s : Repo)
    (hinit : (init s0).exit = 0) (hrun : runOutside es (init s0).repo = some s) :
    readMain s = .ok [] ∨
      ∃ h c, readMain s = .ok h ∧ readObject h s = .ok c ∧ hashString c = h := by
  obtain ⟨v, hm, hv⟩ := good_run es _ s (good_init s0 hinit) hrun
  rcases hv with h0 | ⟨c, hc, hh⟩
  · left
    rw [← h0]
    exact (readMain_iff _ _).2 hm
  · right
    refine ⟨v, c, (readMain_iff _ _).2 hm, ?_, hh⟩
    exact (readObject_iff v s (hh ▸ hashString_plain c) c).2 hc

/-- After a successful `init` the main ref is there and empty. -/
theorem readMain_init (s : Repo) (h : (init s).exit = 0) : readMain (init s).repo = .ok [] := by
  unfold init at h ⊢
  cases h1 : mkdirAll ".mygit/objects".toList s with
  | error e => simp only [h1] at h; cases h
  | ok s1 =>
    cases h2 : mkdirAll ".mygit/refs/heads".toList s1 with
    | error e => simp only [h1, h2] at h; cases h
    | ok s2 =>
      cases h3 : writeFile ".mygit/HEAD".toList "ref: refs/heads/main\n".toList s2 with
      | error e => simp only [h1, h2, h3] at h; cases h
      | ok s3 =>
        cases h4 : writeFile ".mygit/refs/heads/main".toList [] s3 with
        | error e => simp only [h1, h2, h3, h4] at h; cases h
        | ok s4 =>
          simp only [h1, h2, h3, h4]
          obtain ⟨c4, e4⟩ := (writeMain_iff [] s3 s4).1 h4
          rw [e4]
          exact (readMain_iff _ _).2 (holds_write_same _ _ _ _ c4)

/-- With the empty name the object path is the objects directory, which cannot
be read as a file. -/
theorem readObject_nil (s : Repo) : ∃ e, readObject [] s = .error e := by
  have hs : split '/' ".mygit/objects/".toList = [".mygit".toList, "objects".toList, []] := by
    decide
  have hw : ∀ cur, walk s cur [[]] = .ok cur := by
    intro cur
    rw [walk, if_pos (Or.inl rfl), walk]
  unfold readObject readFile
  rw [List.append_nil, resolve_rel _ _ (by decide) (by decide), hs,
    walk_step _ _ _ _ (by decide) (by decide) (by decide) (by decide),
    walk_step _ _ _ _ (by decide) (by decide) (by decide) (by decide), hw]
  by_cases h1 : isDir s s.cwd = true
  · by_cases h2 : isDir s (s.cwd ++ [".mygit".toList]) = true
    · by_cases h3 : isDir s (s.cwd ++ [".mygit".toList] ++ ["objects".toList]) = true
      · exact ⟨.other, by simp only [h1, h2, h3, if_true]⟩
      · by_cases hf : isFile s (s.cwd ++ [".mygit".toList] ++ ["objects".toList]) = true
        · exact ⟨.other, by simp only [h1, h2, h3, hf, if_true, if_false, Bool.false_eq_true]⟩
        · exact ⟨.notExist, by simp only [h1, h2, h3, hf, if_true, if_false, Bool.false_eq_true]⟩
    · by_cases hf : isFile s (s.cwd ++ [".mygit".toList]) = true
      · exact ⟨.other, by simp only [h1, h2, hf, if_true, if_false, Bool.false_eq_true]⟩
      · exact ⟨.notExist, by simp only [h1, h2, hf, if_true, if_false, Bool.false_eq_true]⟩
  · exact ⟨.notExist, by simp only [h1, if_false, Bool.false_eq_true]⟩

/-- Right after `init`, whatever the directory holds, `status` exits with status 1. -/
theorem status_after_init (s : Repo) (h : (init s).exit = 0) :
    (status (init s).repo).exit = 1 := by
  have hm := readMain_init s h
  obtain ⟨e, ho⟩ := readObject_nil (init s).repo
  unfold status
  cases hi : readIndex (init s).repo with
  | ok idx => simp only [hm, ho]
  | error e1 =>
    cases e1 with
    | notExist => simp only [hm, ho, ne_eq, not_true_eq_false, if_false]
    | other => simp only [ne_eq, reduceCtorEq, not_false_eq_true, if_true]

/-- A successful `add` leaves an index with the one line of its file. -/
theorem add_writes_single_entry (f : Str) (s : Repo) (h : (add f s).exit = 0) :
    ∃ c, readFile f s = .ok c ∧
      readIndex (add f s).repo = .ok (f ++ " ".toList ++ hashString c ++ "\n".toList) := by
  obtain ⟨c, hrd, _, w2, hr⟩ := add_ok f s h
  refine ⟨c, hrd, ?_⟩
  rw [hr]
  exact (readIndex_iff _ _).2 (holds_write_same _ _ _ _ w2)

/-! ## the sample runs, evaluated -/

set_option maxRecDepth 200000

/-- C1: with `b.txt` staged, `add a.txt` succeeds and leaves an index that holds
the line of `a.txt` only: the entry of `b.txt` is gone. -/
theorem add_discards_staged_entry :
    readIndex stagedB = .ok "b.txt ae4f281df5a5d0ff3cad6371f76d5c29b6d953ec\n".toList ∧
    (add "a.txt".toList stagedB).exit = 0 ∧
    readIndex (add "a.txt".toList stagedB).repo
      = .ok "a.txt aaf4c61ddcc5e8a2dabede0f3b482cd9aea9434d\n".toList := by
  decide

/-- C2: after `add a.txt`, `commit` and a change of `a.txt` to a text with another
fingerprint, `status` succeeds and lists `a.txt` as untracked, not as modified. -/
theorem status_misses_modified :
    hashString "hello".toList ≠ hashString "hello!".toList ∧
    (status (edit "a.txt".toList "hello!".toList afterCommit)).exit = 0 ∧
    (status (edit "a.txt".toList "hello!".toList afterCommit)).modified = [] ∧
    (status (edit "a.txt".toList "hello!".toList afterCommit)).untracked = ["a.txt".toList] := by
  decide

/-- C3: after `add a.txt` and `commit` in a tree that holds `a.txt` only, `status`
succeeds and lists `a.txt` as untracked. -/
theorem status_not_clean_after_commit :
    (commit "first".toList "2026-11-01T00:00:00Z".toList afterAdd).exit = 0 ∧
    (status afterCommit).exit = 0 ∧
    (status afterCommit).staged = [] ∧
    (status afterCommit).modified = [] ∧
    (status afterCommit).untracked = ["a.txt".toList] := by
  decide

/-- C4: right after a commit the index file is empty, and a second `commit` still
succeeds: it stores a new object and moves the main ref. -/
theorem commit_with_empty_index_succeeds :
    readIndex afterCommit = .ok [] ∧
    readMain afterCommit = .ok "5b6d87866a47a49077d499fdc4836d6aaba2a924".toList ∧
    (commit "second".toList "2026-11-01T00:00:01Z".toList afterCommit).exit = 0 ∧
    readMain (commit "second".toList "2026-11-01T00:00:01Z".toList afterCommit).repo
      = .ok "548fcfcb94d016fa0f7ce86dd34aa49318ea0287".toList ∧
    readObject "548fcfcb94d016fa0f7ce86dd34aa49318ea0287".toList
        (commit "second".toList "2026-11-01T00:00:01Z".toList afterCommit).repo
      = .ok ("parent 5b6d87866a47a49077d499fdc4836d6aaba2a924\nauthor me\n".toList
          ++ "message second\ndate 2026-11-01T00:00:01Z\n".toList) ∧
    readObject "548fcfcb94d016fa0f7ce86dd34aa49318ea0287".toList afterCommit
      = .error .notExist := by
  decide

/-- C5: right after `init` the main ref is present and empty, and `status` exits
with status 1 on the commit object it cannot read; nothing is listed as untracked. -/
theorem status_fails_after_init :
    readMain afterInit = .ok [] ∧
    (status afterInit).exit = 1 ∧
    (status afterInit).out = [.failure "Could not read commit object: ".toList .other] ∧
    (status afterInit).untracked = [] := by
  decide

/-- C7: the record that `commit` stores for the index line written by `add a.txt`
has the blob line with the path first and the fingerprint second. -/
theorem commit_record_path_first :
    readIndex afterAdd = .ok "a.txt aaf4c61ddcc5e8a2dabede0f3b482cd9aea9434d\n".toList ∧
    readObject "5b6d87866a47a49077d499fdc4836d6aaba2a924".toList afterCommit
      = .ok ("parent \nblob a.txt aaf4c61ddcc5e8a2dabede0f3b482cd9aea9434d\n".toList
          ++ "author me\nmessage first\ndate 2026-11-01T00:00:00Z\n".toList) := by
  decide

/-- C8: with an index that has no entry for `a.txt`, `rm a.txt` prints
"Removed a.txt" and never the "was not staged" line. -/
theorem rm_reports_removed_when_not_staged :
    readIndex stagedB = .ok "b.txt ae4f281df5a5d0ff3cad6371f76d5c29b6d953ec\n".toList ∧
    (rm "a.txt".toList stagedB).exit = 0 ∧
    (rm "a.txt".toList stagedB).out = [.text "Removed a.txt".toList] ∧
    readIndex (rm "a.txt".toList stagedB).repo = readIndex stagedB := by
  decide

/-- C10, as stated, fails: after `init`, `add a.txt`, `commit` and a successful
`rm` of the commit object, the main ref names an object that the store does not
have. Besides, the object that `commit` stored is not a commit record as the
specification words it, its blob line having the path first (the record with the
fingerprint first would be one). -/
theorem dangling_after_rm_object :
    ((init tree0).exit = 0
      ∧ runAll danglingRun (init tree0).repo = some afterRmObject
      ∧ readMain afterRmObject = .ok "5b6d87866a47a49077d499fdc4836d6aaba2a924".toList
      ∧ readObject "5b6d87866a47a49077d499fdc4836d6aaba2a924".toList afterRmObject
          = .error .notExist)
    ∧ (readMain afterCommit = .ok "5b6d87866a47a49077d499fdc4836d6aaba2a924".toList
      ∧ readObject "5b6d87866a47a49077d499fdc4836d6aaba2a924".toList afterCommit
          = .ok ("parent \nblob a.txt aaf4c61ddcc5e8a2dabede0f3b482cd9aea9434d\n".toList
              ++ "author me\nmessage first\ndate 2026-11-01T00:00:00Z\n".toList)
      ∧ isSpecRecord ("parent \nblob a.txt aaf4c61ddcc5e8a2dabede0f3b482cd9aea9434d\n".toList
              ++ "author me\nmessage first\ndate 2026-11-01T00:00:00Z\n".toList) = false
      ∧ isSpecRecord ("parent \nblob aaf4c61ddcc5e8a2dabede0f3b482cd9aea9434d a.txt\n".toList
              ++ "author me\nmessage first\ndate 2026-11-01T00:00:00Z\n".toList) = true) := by
  decide

theorem no_dangling_ref_witness :
    ((init tree0).exit = 0 ∧ runOutside session (init tree0).repo = some sessionEnd) ∧
    (readMain sessionEnd = .ok [] ∨
      ∃ h c, readMain sessionEnd = .ok h ∧ readObject h sessionEnd = .ok c ∧
        hashString c = h) :=
  ⟨by decide, no_dangling_ref tree0 session sessionEnd (by decide) (by decide)⟩

end SimpleGit
